import Mathlib

/-!
Verification of the claweb exploration engine and memory store.

This file shallowly embeds the Python source of the repository:
pure fragments become Lean functions over `List Char` / `String`,
database tables become explicit row lists, and the stateful loops
become explicit state-passing functions.  Python floats appearing in
the code (plan confidence) are modelled as rationals; every IEEE
double is a dyadic rational, and for the literals compared here
(0.6 against arbitrary doubles) the rational comparison agrees with
the IEEE comparison, because no double lies strictly between the
double nearest 0.6 and 3/5.
-/

namespace Claweb

/-! ## Character and string helpers (models of Python str primitives)

All operations work on `List Char`, obtained via `String.toList`, so that
concrete instances evaluate by `decide`.  Python `str.lower` is modelled by
ASCII lowercasing (`Char.toLower`); every string the claims evaluate is
ASCII.  Python `str.isdigit` is modelled on ASCII digits. -/

/-- Model of Python string lowercasing, ASCII range. -/
def lowerChars (l : List Char) : List Char := l.map Char.toLower

/-- Model of checking that `lead` is a leading segment of `l`
(the test Python performs at each offset when evaluating `in`). -/
def leadsChars : List Char → List Char → Bool
  | [], _ => true
  | _ :: _, [] => false
  | a :: as, b :: bs => a == b && leadsChars as bs

/-- Model of the Python substring test `needle in haystack`. -/
def containsChars (haystack needle : List Char) : Bool :=
  match haystack with
  | [] => needle == []
  | _ :: t => leadsChars needle haystack || containsChars t needle

/-- Model of Python `needle.lower() in haystack.lower()`. -/
def containsCI (haystack needle : String) : Bool :=
  containsChars (lowerChars haystack.toList) (lowerChars needle.toList)

/-- Model of Python `s.split(sep)` for a one-character separator:
keeps empty pieces, and splitting the empty string yields one empty piece. -/
def splitChars (sep : Char) : List Char → List (List Char)
  | [] => [[]]
  | c :: t =>
    let r := splitChars sep t
    if c == sep then [] :: r
    else
      match r with
      | [] => [[c]]
      | h :: t2 => (c :: h) :: t2

/-- Model of Python `s.strip(c)`: removes every copy of `c` from both ends. -/
def stripChar (c : Char) (l : List Char) : List Char :=
  ((l.dropWhile (· == c)).reverse.dropWhile (· == c)).reverse

/-- Model of Python `s.isdigit()` on ASCII: non-empty and all digits. -/
def isdigitChars (l : List Char) : Bool :=
  !l.isEmpty && l.all Char.isDigit

/-- Model of truncating a string at the first occurrence of `c`
(used for stripping the query and fragment parts of a URL). -/
def dropFromChar (c : Char) (l : List Char) : List Char :=
  l.takeWhile (· != c)

/-- Model of locating the suffix of `l` after the first occurrence of
`needle`; `none` when `needle` does not occur. -/
def afterSubstr (needle : List Char) : List Char → Option (List Char)
  | [] => if needle == [] then some [] else none
  | h :: t =>
    if leadsChars needle (h :: t) then some ((h :: t).drop needle.length)
    else afterSubstr needle t

/-- Model of `urllib.parse.urlparse(s).path` for the URL shapes the code
produces (absolute `scheme://netloc/path` URLs, possibly with a query after
`?` and a fragment after `#`, and bare relative paths): the fragment and
query are cut off, then everything through the netloc is dropped. -/
def urlPathChars (l : List Char) : List Char :=
  let l1 := dropFromChar '?' (dropFromChar '#' l)
  match afterSubstr [':', '/', '/'] l1 with
  | some rest => rest.dropWhile (· != '/')
  | none => l1

/-- Model of `parsed.path.strip('/').split('/')` as performed by
`SQLiteDatabase._url_matches_pattern` on both of its arguments. -/
def pathSegments (s : String) : List (List Char) :=
  splitChars '/' (stripChar '/' (urlPathChars s.toList))

/-! ## Memory store rows

Row models keep only the columns the modelled operations read or compare;
the remaining columns (timestamps, visit counts, descriptions) do not
influence any of the functions embedded here. -/

/-- Model of a `pages` table row (`claweb.storage.models.Page`), restricted
to the columns `find_similar_page` reads. -/
structure PageRow where
  id : Nat
  site_id : Nat
  url_pattern : String
  title_pattern : String
deriving DecidableEq, Repr

/-- Model of `SQLiteDatabase._url_matches_pattern` (database.py lines
303-321): an empty pattern never matches; otherwise both path-segment lists
must have equal length and each pattern segment must equal the URL segment,
be the wildcard `*`, or pair a numeric segment with a numeric segment. -/
def url_matches_pattern (url pattern : String) : Bool :=
  if pattern == "" then false
  else
    let u := pathSegments url
    let p := pathSegments pattern
    u.length == p.length &&
      (u.zip p).all fun up =>
        (up.2 == ['*'] || up.2 == up.1) ||
          (isdigitChars up.1 && isdigitChars up.2)

/-- Model of `SQLiteDatabase.find_similar_page` (database.py lines 293-301)
over the site's page rows in fetch order: for each row in turn, first the
URL pattern test, then the case-insensitive title substring test. -/
def find_similar_page : List PageRow → String → String → Option PageRow
  | [], _, _ => none
  | p :: rest, url, title =>
    if url_matches_pattern url p.url_pattern then some p
    else if title != "" && p.title_pattern != "" &&
        containsCI p.title_pattern title then some p
    else find_similar_page rest url title

/-- Model of `MySQLDatabase.find_similar_page` (database.py lines 715-721)
over the same rows: only the case-insensitive title substring test is
applied; the URL pattern test is absent from this backend. -/
def find_similar_page_mysql : List PageRow → String → String → Option PageRow
  | [], _, _ => none
  | p :: rest, url, title =>
    if title != "" && p.title_pattern != "" &&
        containsCI p.title_pattern title then some p
    else find_similar_page_mysql rest url title

/-- Combined per-row match test of the SQLite scan: the row is returned when
either its URL pattern matches or the title substring test succeeds. -/
def pageRowMatches (url title : String) (p : PageRow) : Bool :=
  url_matches_pattern url p.url_pattern ||
    (title != "" && p.title_pattern != "" && containsCI p.title_pattern title)

/-- C4: for URLs with equally long path-segment lists, the matcher returns
true when every segment pair is equal, a wildcard on the pattern side, or
numeric on both sides; and it returns false as soon as any single segment
pair is none of these. -/
theorem c4_url_pattern_match (url pattern : String)
    (hne : pattern ≠ "")
    (hlen : (pathSegments url).length = (pathSegments pattern).length) :
    ((∀ up ∈ (pathSegments url).zip (pathSegments pattern),
        up.2 = up.1 ∨ up.2 = ['*'] ∨
          (isdigitChars up.1 = true ∧ isdigitChars up.2 = true)) →
      url_matches_pattern url pattern = true)
    ∧ (∀ up ∈ (pathSegments url).zip (pathSegments pattern),
        up.2 ≠ up.1 → up.2 ≠ ['*'] →
        ¬(isdigitChars up.1 = true ∧ isdigitChars up.2 = true) →
        url_matches_pattern url pattern = false) := by
  have hbeq : (pattern == "") = false := by
    simp [hne]
  constructor
  · intro hall
    have h1 : ((pathSegments url).length == (pathSegments pattern).length) = true := by
      simp [hlen]
    have h2 : (((pathSegments url).zip (pathSegments pattern)).all fun up =>
        (up.2 == ['*'] || up.2 == up.1) ||
          (isdigitChars up.1 && isdigitChars up.2)) = true := by
      rw [List.all_eq_true]
      intro up hup
      rcases hall up hup with h | h | h
      · simp [h]
      · simp [h]
      · simp [h.1, h.2]
    simp [url_matches_pattern, hbeq, h1, h2]
  · intro up hup hb1 hb2 hb3
    have hallf : (((pathSegments url).zip (pathSegments pattern)).all fun up =>
        (up.2 == ['*'] || up.2 == up.1) ||
          (isdigitChars up.1 && isdigitChars up.2)) = false := by
      cases hall : ((pathSegments url).zip (pathSegments pattern)).all fun up =>
          (up.2 == ['*'] || up.2 == up.1) ||
            (isdigitChars up.1 && isdigitChars up.2) with
      | false => rfl
      | true =>
        exfalso
        rw [List.all_eq_true] at hall
        have hthis := hall up hup
        simp only [Bool.or_eq_true, beq_iff_eq, Bool.and_eq_true] at hthis
        rcases hthis with (h | h) | h
        · exact hb2 h
        · exact hb1 h
        · exact hb3 h
    simp [url_matches_pattern, hbeq, hallf]

/-- Closed witness for `c4_url_pattern_match`: a pair of concrete URLs with
numeric id segments matches; replacing the numeric segment of the pattern
with a non-numeric, non-wildcard one makes the matcher return false. -/
theorem c4_url_pattern_match_witness :
    url_matches_pattern "https://ex.com/order/123/edit"
      "https://ex.com/order/457/edit" = true ∧
    url_matches_pattern "https://ex.com/order/123/edit"
      "https://ex.com/order/abc/edit" = false := by
  constructor
  · exact (c4_url_pattern_match "https://ex.com/order/123/edit"
      "https://ex.com/order/457/edit" (by decide) (by decide)).1 (by decide)
  · exact (c4_url_pattern_match "https://ex.com/order/123/edit"
      "https://ex.com/order/abc/edit" (by decide) (by decide)).2
      (['1','2','3'], ['a','b','c'])
      (by decide) (by decide) (by decide) (by decide)

/-- C3 counterexample: with a first stored row whose title matches (but not
its URL pattern) and a second stored row whose URL pattern matches, the
SQLite scan returns the earlier, title-matching row — refuting the claim
that the title test is used only when no stored page URL-matches. -/
theorem c3_counterexample :
    find_similar_page
      [⟨1, 1, "https://ex.com/b", "Dashboard"⟩,
       ⟨2, 1, "https://ex.com/a", "Other"⟩]
      "https://ex.com/a" "dash" =
        some ⟨1, 1, "https://ex.com/b", "Dashboard"⟩ ∧
    url_matches_pattern "https://ex.com/a" "https://ex.com/b" = false ∧
    url_matches_pattern "https://ex.com/a" "https://ex.com/a" = true := by
  decide

/-- C3 amended: `find_similar_page` scans the rows in order and returns the
first row that passes the per-row test — URL pattern match or
case-insensitive title substring match — so an earlier row that only
title-matches shadows a later row whose URL pattern matches. -/
theorem c3_find_similar_page_first_row_match (pages : List PageRow)
    (url title : String) :
    find_similar_page pages url title =
      pages.find? (pageRowMatches url title) := by
  induction pages with
  | nil => rfl
  | cons p rest ih =>
    simp only [find_similar_page, List.find?, pageRowMatches]
    cases hu : url_matches_pattern url p.url_pattern with
    | true => simp [hu]
    | false =>
      cases hc : (title != "" && p.title_pattern != "" &&
          containsCI p.title_pattern title) with
      | true => simp [hu, hc]
      | false => simp [hu, hc, ih]

/-- C2: the two backends diverge on the same stored rows: for a site with
one stored page whose URL pattern matches the query URL but whose title
does not, the SQLite backend returns the page and the MySQL backend
returns none, because the MySQL implementation omits the URL pattern
test. -/
theorem c2_backend_divergence :
    find_similar_page [⟨1, 1, "https://ex.com/a", "Foo"⟩]
      "https://ex.com/a" "zzz" = some ⟨1, 1, "https://ex.com/a", "Foo"⟩ ∧
    find_similar_page_mysql [⟨1, 1, "https://ex.com/a", "Foo"⟩]
      "https://ex.com/a" "zzz" = none := by
  decide

/-! ## Task path retrieval (`find_task_path`) -/

/-- Model of Python `s.split()` with no separator: splits on whitespace
runs and drops empty pieces. -/
def splitWsAcc : List Char → List Char → List (List Char)
  | acc, [] => if acc == [] then [] else [acc.reverse]
  | acc, c :: t =>
    if c.isWhitespace then
      if acc == [] then splitWsAcc [] t else acc.reverse :: splitWsAcc [] t
    else splitWsAcc (c :: acc) t

/-- Model of `task_description.lower().split()` (database.py line 470). -/
def descTokens (desc : String) : List (List Char) :=
  splitWsAcc [] (lowerChars desc.toList)

/-- Model of a `task_paths` table row, restricted to the columns
`find_task_path` reads. -/
structure TaskPathRow where
  id : Nat
  site_id : Nat
  task_description : String
  task_keywords : String
deriving DecidableEq, Repr

/-- Model of the per-row score of `find_task_path`:
`sum(1 for kw in keywords if kw in task_path.task_keywords.lower())`. -/
def taskPathScore (keywords : List (List Char)) (row : TaskPathRow) : Nat :=
  (keywords.filter fun kw =>
    containsChars (lowerChars row.task_keywords.toList) kw).length

/-- Model of the best-match scan of `find_task_path` (database.py lines
473-482): `best_match` and `best_score` are threaded through the rows and a
row replaces the current best only when its score is strictly greater. -/
def ftpLoop (keywords : List (List Char)) :
    List TaskPathRow → Option TaskPathRow → Nat → Option TaskPathRow × Nat
  | [], best, bestScore => (best, bestScore)
  | r :: rest, best, bestScore =>
    if taskPathScore keywords r > bestScore then
      ftpLoop keywords rest (some r) (taskPathScore keywords r)
    else ftpLoop keywords rest best bestScore

/-- Model of `SQLiteDatabase.find_task_path` (database.py lines 469-483)
over the site's task-path rows in fetch order. -/
def find_task_path (paths : List TaskPathRow) (desc : String) : Option TaskPathRow :=
  let res := ftpLoop (descTokens desc) paths none 0
  if res.2 > 0 then res.1 else none

/-- Maximum per-row score over the site's task-path rows. -/
def maxTaskScore (paths : List TaskPathRow) (desc : String) : Nat :=
  (paths.map (taskPathScore (descTokens desc))).foldr max 0

/-! ## Site creation (`get_or_create_site`) -/

/-- Model of a `sites` table row. -/
structure SiteRow where
  id : Nat
  domain : String
  name : String
  description : String
deriving DecidableEq, Repr

/-- Model of the `sites` table: rows in insertion order plus the next
AUTOINCREMENT id. -/
structure SitesTable where
  rows : List SiteRow
  nextId : Nat
deriving DecidableEq, Repr

/-- Model of `SQLiteDatabase.get_or_create_site` (database.py lines
215-238): look up the first row with the exact domain; if none, insert a
new row (name defaulting to the domain, per Python `name or domain`) and
return it with the fresh AUTOINCREMENT id. -/
def get_or_create_site (st : SitesTable) (domain name description : String) :
    SiteRow × SitesTable :=
  match st.rows.find? (fun r => r.domain == domain) with
  | some r => (r, st)
  | none =>
    let r : SiteRow :=
      ⟨st.nextId, domain, if name == "" then domain else name, description⟩
    (r, ⟨st.rows ++ [r], st.nextId + 1⟩)

/-- Number of rows of the table carrying the given domain. -/
def countDomain (st : SitesTable) (domain : String) : Nat :=
  (st.rows.filter fun r => r.domain == domain).length

/-- Every row's score is bounded by the folded maximum of the scores. -/
lemma le_maxFold (score : TaskPathRow → Nat) (l : List TaskPathRow) :
    ∀ r ∈ l, score r ≤ (l.map score).foldr max 0 := by
  induction l with
  | nil => intro r hr; cases hr
  | cons a t ih =>
    intro r hr
    rcases List.mem_cons.mp hr with h | h
    · subst h; exact le_max_left _ _
    · exact le_trans (ih r h) (le_max_right _ _)

/-- When no remaining row beats the running best score, the scan keeps the
current best match and score. -/
lemma ftpLoop_of_le (keywords : List (List Char)) (l : List TaskPathRow)
    (best : Option TaskPathRow) (b : Nat)
    (h : ∀ r ∈ l, taskPathScore keywords r ≤ b) :
    ftpLoop keywords l best b = (best, b) := by
  induction l generalizing best with
  | nil => rfl
  | cons a t ih =>
    have ha : taskPathScore keywords a ≤ b := h a (List.mem_cons_self a t)
    have : ¬(taskPathScore keywords a > b) := not_lt.mpr ha
    simp only [ftpLoop, if_neg this]
    exact ih best fun r hr => h r (List.mem_cons_of_mem a hr)

/-- When some remaining row beats the running best score, the scan ends on
the first row attaining the maximum score of the remaining rows. -/
lemma ftpLoop_of_lt (keywords : List (List Char)) (l : List TaskPathRow)
    (best : Option TaskPathRow) (b : Nat)
    (h : b < (l.map (taskPathScore keywords)).foldr max 0) :
    ftpLoop keywords l best b =
      (l.find? (fun r => taskPathScore keywords r ==
          (l.map (taskPathScore keywords)).foldr max 0),
        (l.map (taskPathScore keywords)).foldr max 0) := by
  induction l generalizing best b with
  | nil => simp at h
  | cons a t ih =>
    have hM : ((a :: t).map (taskPathScore keywords)).foldr max 0 =
        max (taskPathScore keywords a) ((t.map (taskPathScore keywords)).foldr max 0) := rfl
    by_cases hab : taskPathScore keywords a > b
    · simp only [ftpLoop, if_pos hab]
      rcases le_or_lt ((t.map (taskPathScore keywords)).foldr max 0)
          (taskPathScore keywords a) with hle | hlt
      · have hMa : ((a :: t).map (taskPathScore keywords)).foldr max 0 =
            taskPathScore keywords a := by
          rw [hM]; exact max_eq_left hle
        rw [ftpLoop_of_le keywords t (some a) (taskPathScore keywords a)
          (fun r hr => le_trans (le_maxFold (taskPathScore keywords) t r hr) hle)]
        rw [hMa]
        simp [List.find?]
      · have hMt : ((a :: t).map (taskPathScore keywords)).foldr max 0 =
            (t.map (taskPathScore keywords)).foldr max 0 := by
          rw [hM]; exact max_eq_right (le_of_lt hlt)
        rw [ih (some a) (taskPathScore keywords a) hlt, hMt]
        have hne : (taskPathScore keywords a ==
            (t.map (taskPathScore keywords)).foldr max 0) = false := by
          simp [Nat.ne_of_lt hlt]
        simp [List.find?, hne]
    · have hab2 : taskPathScore keywords a ≤ b := not_lt.mp hab
      have hbt : b < (t.map (taskPathScore keywords)).foldr max 0 := by
        rw [hM] at h
        rcases max_cases (taskPathScore keywords a)
            ((t.map (taskPathScore keywords)).foldr max 0) with ⟨he, _⟩ | ⟨he, _⟩
        · rw [he] at h; omega
        · rw [he] at h; exact h
      have hMt : ((a :: t).map (taskPathScore keywords)).foldr max 0 =
          (t.map (taskPathScore keywords)).foldr max 0 := by
        rw [hM]; exact max_eq_right (le_of_lt (lt_of_le_of_lt hab2 hbt))
      simp only [ftpLoop, if_neg hab]
      rw [ih best b hbt, hMt]
      have hne : (taskPathScore keywords a ==
          (t.map (taskPathScore keywords)).foldr max 0) = false := by
        simp [Nat.ne_of_lt (lt_of_le_of_lt hab2 hbt)]
      simp [List.find?, hne]

/-- C5: `find_task_path` returns none exactly when every stored task path
of the site scores zero against the whitespace-tokenized, lower-cased
description, and otherwise returns the first-encountered row attaining the
(strictly positive) maximum score — so ties resolve to the earliest row
and no error is possible. -/
theorem c5_find_task_path (paths : List TaskPathRow) (desc : String) :
    find_task_path paths desc =
      if maxTaskScore paths desc = 0 then none
      else paths.find? fun r =>
        taskPathScore (descTokens desc) r == maxTaskScore paths desc := by
  unfold find_task_path maxTaskScore
  by_cases h : (paths.map (taskPathScore (descTokens desc))).foldr max 0 = 0
  · rw [ftpLoop_of_le (descTokens desc) paths none 0
      (fun r hr => by
        have := le_maxFold (taskPathScore (descTokens desc)) paths r hr
        omega)]
    simp [h]
  · have hpos : 0 < (paths.map (taskPathScore (descTokens desc))).foldr max 0 :=
      Nat.pos_of_ne_zero h
    rw [ftpLoop_of_lt (descTokens desc) paths none 0 hpos]
    simp [h, hpos]

/-- C6: `get_or_create_site` is idempotent: when the table satisfies the
schema's domain-uniqueness invariant, two successive calls with the same
domain return rows with the same id, the second call leaves the table
unchanged, and exactly one row with that domain exists afterwards. -/
theorem c6_get_or_create_site_idempotent (st : SitesTable)
    (domain name description : String)
    (hunique : countDomain st domain ≤ 1) :
    (get_or_create_site st domain name description).1.id =
      (get_or_create_site (get_or_create_site st domain name description).2
        domain name description).1.id ∧
    (get_or_create_site (get_or_create_site st domain name description).2
      domain name description).2 =
      (get_or_create_site st domain name description).2 ∧
    countDomain (get_or_create_site st domain name description).2 domain = 1 := by
  cases hf : st.rows.find? (fun r => r.domain == domain) with
  | some r =>
    have hp0 := List.find?_some hf
    have hp : (r.domain == domain) = true := by simpa using hp0
    have hmem : r ∈ st.rows := List.mem_of_find?_eq_some hf
    have hcount : countDomain st domain = 1 := by
      have hmemf : r ∈ st.rows.filter (fun r => r.domain == domain) :=
        List.mem_filter.mpr ⟨hmem, hp⟩
      have hpos : 0 < countDomain st domain :=
        List.length_pos.mpr (List.ne_nil_of_mem hmemf)
      omega
    simp [get_or_create_site, hf, hcount]
  | none =>
    have hfilter : st.rows.filter (fun r => r.domain == domain) = [] := by
      rw [List.filter_eq_nil_iff]
      exact fun a ha => List.find?_eq_none.mp hf a ha
    have hstep : get_or_create_site st domain name description =
        (⟨st.nextId, domain, if name == "" then domain else name, description⟩,
         ⟨st.rows ++ [⟨st.nextId, domain,
            if name == "" then domain else name, description⟩],
          st.nextId + 1⟩) := by
      simp [get_or_create_site, hf]
    rw [hstep]
    constructor
    · simp [get_or_create_site, hf]
    constructor
    · simp [get_or_create_site, hf]
    · simp [countDomain, List.filter_append, hfilter, List.filter]

/-! ## Exploration engine: pending-item ordering

Python's `list.sort(key=..., reverse=True)` is the stable descending sort:
its output is the unique permutation that is descending in the key and
keeps the original relative order of equal-key elements.  The insertion
sort below realises exactly that semantics (an earlier element is placed
before later elements with an equal key), so it is extensionally the
function the Python code computes. -/

/-- Model of a `pending_items` entry (explorer.py lines 286-296); the
locator, element id, source ids and text fields are omitted because no
modelled operation reads them. -/
structure PendingItem where
  name : String
  priority : Int
  item_type : String
  crud_type : String
deriving DecidableEq, Repr

/-- Stable descending insertion: `x` (the earlier element) is placed
before every later element whose key does not exceed the key of `x`. -/
def insortDesc {α : Type} (key : α → Int) (x : α) : List α → List α
  | [] => [x]
  | y :: t => if key y ≤ key x then x :: y :: t else y :: insortDesc key x t

/-- Model of Python `list.sort(key=key, reverse=True)`: the stable
descending sort by `key`. -/
def pySortDesc {α : Type} (key : α → Int) : List α → List α
  | [] => []
  | x :: t => insortDesc key x (pySortDesc key t)

/-- Model of the sort key of `SiteExplorer._analyze_and_collect_items`
(explorer.py lines 306-312): nav items rank 10, CRUD subtype create 9,
read/update 8, delete 7, and anything else falls back to the element's raw
priority. -/
def derivedRank (x : PendingItem) : Int :=
  if x.item_type == "nav" then 10
  else if x.crud_type == "create" then 9
  else if x.crud_type == "read" || x.crud_type == "update" then 8
  else if x.crud_type == "delete" then 7
  else x.priority

/-- Model of the `pending_items` sort performed after the initial
collection batch (explorer.py line 306): stable descending by the derived
rank. -/
def sortCollect (l : List PendingItem) : List PendingItem :=
  pySortDesc derivedRank l

/-- Model of the `pending_items` sort performed after the batch collected
after a click (explorer.py line 510): stable descending by the raw
priority only. -/
def sortAfterClick (l : List PendingItem) : List PendingItem :=
  pySortDesc (fun x => x.priority) l

lemma insortDesc_perm {α : Type} (key : α → Int) (x : α) (l : List α) :
    (insortDesc key x l).Perm (x :: l) := by
  induction l with
  | nil => exact List.Perm.refl _
  | cons y t ih =>
    by_cases h : key y ≤ key x
    · simp [insortDesc, h]
    · simp only [insortDesc, if_neg h]
      exact ((ih.cons y).trans (List.Perm.swap x y t))

lemma pySortDesc_perm {α : Type} (key : α → Int) (l : List α) :
    (pySortDesc key l).Perm l := by
  induction l with
  | nil => exact List.Perm.refl _
  | cons x t ih =>
    exact (insortDesc_perm key x (pySortDesc key t)).trans (ih.cons x)

lemma insortDesc_sorted {α : Type} (key : α → Int) (x : α) (l : List α)
    (hl : l.Pairwise fun a b => key b ≤ key a) :
    (insortDesc key x l).Pairwise fun a b => key b ≤ key a := by
  induction l with
  | nil => simp [insortDesc]
  | cons y t ih =>
    rcases List.pairwise_cons.mp hl with ⟨hy, ht⟩
    by_cases h : key y ≤ key x
    · simp only [insortDesc, if_pos h]
      refine List.pairwise_cons.mpr ⟨?_, hl⟩
      intro b hb
      rcases List.mem_cons.mp hb with rfl | hb
      · exact h
      · exact le_trans (hy b hb) h
    · simp only [insortDesc, if_neg h]
      refine List.pairwise_cons.mpr ⟨?_, ih ht⟩
      intro b hb
      have hb2 := (insortDesc_perm key x t).mem_iff.mp hb
      rcases List.mem_cons.mp hb2 with rfl | hb2
      · exact le_of_lt (lt_of_not_le h)
      · exact hy b hb2

lemma pySortDesc_sorted {α : Type} (key : α → Int) (l : List α) :
    (pySortDesc key l).Pairwise fun a b => key b ≤ key a := by
  induction l with
  | nil => simp [pySortDesc]
  | cons x t ih => exact insortDesc_sorted key x (pySortDesc key t) ih

/-- First example item of the claim: a generic action with raw priority 8. -/
def itemAction : PendingItem := ⟨"action", 8, "action", "none"⟩

/-- Second example item of the claim: a nav item with raw priority 1. -/
def itemNav : PendingItem := ⟨"nav", 1, "nav", "none"⟩

/-- Third example item of the claim: a crud/delete item with raw
priority 9. -/
def itemDelete : PendingItem := ⟨"delete", 9, "crud", "delete"⟩

/-- Fourth example item of the claim: a crud/create item with raw
priority 2. -/
def itemCreate : PendingItem := ⟨"create", 2, "crud", "create"⟩

/-- All insertion orders of the four example items. -/
def fourItemOrders : List (List PendingItem) :=
  [[itemAction, itemNav, itemDelete, itemCreate],
   [itemAction, itemNav, itemCreate, itemDelete],
   [itemAction, itemDelete, itemNav, itemCreate],
   [itemAction, itemDelete, itemCreate, itemNav],
   [itemAction, itemCreate, itemNav, itemDelete],
   [itemAction, itemCreate, itemDelete, itemNav],
   [itemNav, itemAction, itemDelete, itemCreate],
   [itemNav, itemAction, itemCreate, itemDelete],
   [itemNav, itemDelete, itemAction, itemCreate],
   [itemNav, itemDelete, itemCreate, itemAction],
   [itemNav, itemCreate, itemAction, itemDelete],
   [itemNav, itemCreate, itemDelete, itemAction],
   [itemDelete, itemAction, itemNav, itemCreate],
   [itemDelete, itemAction, itemCreate, itemNav],
   [itemDelete, itemNav, itemAction, itemCreate],
   [itemDelete, itemNav, itemCreate, itemAction],
   [itemDelete, itemCreate, itemAction, itemNav],
   [itemDelete, itemCreate, itemNav, itemAction],
   [itemCreate, itemAction, itemNav, itemDelete],
   [itemCreate, itemAction, itemDelete, itemNav],
   [itemCreate, itemNav, itemAction, itemDelete],
   [itemCreate, itemNav, itemDelete, itemAction],
   [itemCreate, itemDelete, itemAction, itemNav],
   [itemCreate, itemDelete, itemNav, itemAction]]

/-- C1 counterexample: the claim fails twice on the code.  On the four
items of the claim the initial-collection sort puts the priority-8 action
item above the crud/delete item (derived rank 7), so the sorted order is
nav, create, action, delete rather than the claimed nav, create, delete,
action; and the sort performed after a click orders by raw priority only,
putting crud/delete (priority 9) first and nav (priority 1) last. -/
theorem c1_counterexample :
    sortCollect [itemAction, itemNav, itemDelete, itemCreate] =
      [itemNav, itemCreate, itemAction, itemDelete] ∧
    sortCollect [itemAction, itemNav, itemDelete, itemCreate] ≠
      [itemNav, itemCreate, itemDelete, itemAction] ∧
    sortAfterClick [itemAction, itemNav, itemDelete, itemCreate] =
      [itemDelete, itemAction, itemCreate, itemNav] := by
  decide

/-- C1 amended: the sort after the initial collection batch is a stable
permutation descending in the derived rank, whose delete rank 7 sits below
raw priorities of 8 and above, so on the four items of the claim it yields
nav, crud/create, action, crud/delete regardless of insertion order; the
sort after the post-click batch is instead a stable permutation descending
in the raw priority only. -/
theorem c1_pending_items_ordering (l : List PendingItem) :
    ((sortCollect l).Perm l ∧
      (sortCollect l).Pairwise (fun a b => derivedRank b ≤ derivedRank a)) ∧
    ((sortAfterClick l).Perm l ∧
      (sortAfterClick l).Pairwise (fun a b => b.priority ≤ a.priority)) ∧
    (∀ p ∈ fourItemOrders,
      sortCollect p =
        [itemNav, itemCreate, itemAction, itemDelete]) := by
  refine ⟨⟨pySortDesc_perm _ l, pySortDesc_sorted _ l⟩,
    ⟨pySortDesc_perm _ l, pySortDesc_sorted _ l⟩, ?_⟩
  decide

/-! ## Task executor: planned-vs-live selection (`WebAgent.execute_task`)

Plan confidence is a Python float; floats are dyadic rationals and, because
no IEEE double lies strictly between the double written `0.6` and the
rational 3/5, comparing a double confidence against the float literal `0.6`
gives the same answer as comparing its rational value against `3/5`. -/

/-- Model of the plan dict fields `execute_task` reads (agent.py line
141). -/
structure PlanResult where
  can_plan : Bool
  confidence : ℚ
deriving DecidableEq, Repr

/-- Execution mode chosen by `WebAgent.execute_task`. -/
inductive ExecMode
  | planned
  | live
deriving DecidableEq, Repr

/-- Model of the mode selection of `WebAgent.execute_task` (agent.py lines
127-155): planned execution runs only when the memory system is active, a
current site exists, and the obtained plan has `can_plan` truthy with
confidence strictly above 0.6; otherwise live execution runs. -/
def chooseExecMode (useMemory hasSite : Bool) (plan : PlanResult) : ExecMode :=
  if useMemory && hasSite then
    if plan.can_plan && decide ((3 : ℚ)/5 < plan.confidence) then .planned
    else .live
  else .live

/-- C7: with memory active and a site present, planned execution is
selected exactly when the plan has `can_plan` true and confidence strictly
greater than 0.6; in particular confidence 0.55 and 0.6 fall back to live
execution while 0.61 selects planned execution. -/
theorem c7_plan_selection_threshold :
    (∀ plan : PlanResult, chooseExecMode true true plan = .planned ↔
      (plan.can_plan = true ∧ (3 : ℚ)/5 < plan.confidence)) ∧
    chooseExecMode true true ⟨true, 11/20⟩ = .live ∧
    chooseExecMode true true ⟨true, 3/5⟩ = .live ∧
    chooseExecMode true true ⟨true, 61/100⟩ = .planned := by
  refine ⟨?_, ?_, ?_, ?_⟩
  · intro plan
    constructor
    · intro h
      by_cases hc : plan.can_plan && decide ((3 : ℚ)/5 < plan.confidence)
      · rcases Bool.and_eq_true .. ▸ hc with ⟨h1, h2⟩
        exact ⟨h1, of_decide_eq_true h2⟩
      · simp [chooseExecMode, hc] at h
    · rintro ⟨h1, h2⟩
      simp [chooseExecMode, h1, h2]
  · norm_num [chooseExecMode]
  · norm_num [chooseExecMode]
  · norm_num [chooseExecMode]

/-! ## Action executor (`ActionExecutor.execute`)

The regular expressions of action_executor.py lines 14-20 are literal
patterns with small optional parts; each is modelled by a hand-written
matcher with Python `re.search` semantics (try every start position, first
success wins; `IGNORECASE` becomes case-insensitive character comparison;
lazy `(.+?)["']` takes the shortest non-empty run up to the next quote of
either kind). -/

/-- Case-insensitive model of a leading-segment comparison, used for the
`IGNORECASE` regexes. -/
def leadsCIChars : List Char → List Char → Bool
  | [], _ => true
  | _ :: _, [] => false
  | a :: as, b :: bs => a.toLower == b.toLower && leadsCIChars as bs

/-- Model of `re.search` for a plain literal pattern compiled with
`IGNORECASE` (the DONE and PAUSE patterns): case-insensitive substring
containment. -/
def containsCIChars (haystack needle : List Char) : Bool :=
  match haystack with
  | [] => needle == []
  | _ :: t => leadsCIChars needle haystack || containsCIChars t needle

/-- Suffix after the first case-insensitive occurrence of `needle`. -/
def afterCI (needle : List Char) : List Char → Option (List Char)
  | [] => if needle == [] then some [] else none
  | h :: t =>
    if leadsCIChars needle (h :: t) then some ((h :: t).drop needle.length)
    else afterCI needle t

/-- Model of Python `action.strip()` on ASCII whitespace. -/
def pyStripChars (l : List Char) : List Char :=
  ((l.dropWhile Char.isWhitespace).reverse.dropWhile Char.isWhitespace).reverse

/-- Model of Python `int` on a run of ASCII digits. -/
def digitsToNat (ds : List Char) : Nat :=
  ds.foldl (fun acc c => acc * 10 + (c.toNat - 48)) 0

/-- Model of scanning every start position, as `re.search` does: the
position matcher is tried on each suffix in order. -/
def scanFor {α : Type} (matchAt : List Char → Option α) : List Char → Option α
  | [] => matchAt []
  | h :: t =>
    match matchAt (h :: t) with
    | some r => some r
    | none => scanFor matchAt t

/-- A single-quote character, written by code so that the quote characters
of the TYPE and GOTO patterns can be compared. -/
def singleQuote : Char := Char.ofNat 39

/-- Test for the regex character class of quotes used by the TYPE and GOTO
patterns. -/
def quoteChar (c : Char) : Bool := c == '"' || c == singleQuote

/-- Model of the lazy group `(.+?)["']` applied after an opening quote:
the shortest non-empty run of characters followed by a quote of either
kind, returned with the remainder after the closing quote. -/
def lazyQuotedAux : List Char → Option (List Char × List Char)
  | [] => none
  | c :: t =>
    if quoteChar c then some ([], t)
    else
      match lazyQuotedAux t with
      | some (b, r) => some (c :: b, r)
      | none => none

/-- The lazy `(.+?)["']` group: at least one character is consumed before
the closing quote is sought. -/
def lazyQuoted : List Char → Option (List Char × List Char)
  | [] => none
  | c0 :: t0 =>
    match lazyQuotedAux t0 with
    | some (b, r) => some (c0 :: b, r)
    | none => none

/-- Position matcher for `CLICK\s*\[[@#$%]?(\d+)\]`. -/
def clickAt (l : List Char) : Option Nat :=
  if leadsCIChars ['c', 'l', 'i', 'c', 'k'] l then
    match (l.drop 5).dropWhile Char.isWhitespace with
    | '[' :: r2 =>
      let r3 := match r2 with
        | c :: t => if c == '@' || c == '#' || c == '$' || c == '%' then t else r2
        | [] => r2
      let ds := r3.takeWhile Char.isDigit
      match r3.drop ds.length with
      | ']' :: _ => if ds == [] then none else some (digitsToNat ds)
      | _ => none
    | _ => none
  else none

/-- Position matcher for `TYPE\s*\[[@#$%]?(\d+)\]\s*["'](.+?)["']`. -/
def typeAt (l : List Char) : Option (Nat × List Char) :=
  if leadsCIChars ['t', 'y', 'p', 'e'] l then
    match (l.drop 4).dropWhile Char.isWhitespace with
    | '[' :: r2 =>
      let r3 := match r2 with
        | c :: t => if c == '@' || c == '#' || c == '$' || c == '%' then t else r2
        | [] => r2
      let ds := r3.takeWhile Char.isDigit
      match r3.drop ds.length with
      | ']' :: r4 =>
        if ds == [] then none
        else
          match r4.dropWhile Char.isWhitespace with
          | q :: r6 =>
            if quoteChar q then
              match lazyQuoted r6 with
              | some (b, _) => some (digitsToNat ds, b)
              | none => none
            else none
          | [] => none
      | _ => none
    | _ => none
  else none

/-- Position matcher for `SCROLL\s+(UP|DOWN)`; true means UP. -/
def scrollAt (l : List Char) : Option Bool :=
  if leadsCIChars ['s', 'c', 'r', 'o', 'l', 'l'] l then
    let rest := l.drop 6
    if rest.takeWhile Char.isWhitespace == [] then none
    else
      let r1 := rest.dropWhile Char.isWhitespace
      if leadsCIChars ['u', 'p'] r1 then some true
      else if leadsCIChars ['d', 'o', 'w', 'n'] r1 then some false
      else none
  else none

/-- Position matcher for `GOTO\s*["'](.+?)["']`. -/
def gotoAt (l : List Char) : Option (List Char) :=
  if leadsCIChars ['g', 'o', 't', 'o'] l then
    match (l.drop 4).dropWhile Char.isWhitespace with
    | q :: r2 =>
      if quoteChar q then
        match lazyQuoted r2 with
        | some (b, _) => some b
        | none => none
      else none
    | [] => none
  else none

/-- Model of the search for `WAIT\s*(\d+)?`: everything after the WAIT
literal is optional, so the first case-insensitive occurrence of WAIT
matches; the seconds default to 2 when no digits follow and are clamped to
at most 30 (action_executor.py lines 40-44). -/
def waitSearch (l : List Char) : Option Nat :=
  match afterCI ['w', 'a', 'i', 't'] l with
  | none => none
  | some rest =>
    let ds := (rest.dropWhile Char.isWhitespace).takeWhile Char.isDigit
    some (min (if ds == [] then 2 else digitsToNat ds) 30)

/-- Model of `_goto`'s scheme completion (action_executor.py line 111): a
URL not starting with `http://` or `https://` gets `https://` prefixed. -/
def normalizeGotoUrl (url : List Char) : List Char :=
  if leadsChars "http://".toList url || leadsChars "https://".toList url then url
  else "https://".toList ++ url

/-- Outcome of one `ActionExecutor.execute` dispatch.  The browser effects
and human-readable result strings are external; the outcome records which
branch ran and its parsed arguments. -/
inductive ActionOutcome
  | done
  | pause
  | wait (seconds : Nat)
  | click (tagId : Nat)
  | typeText (tagId : Nat) (text : List Char)
  | scroll (up : Bool)
  | goto (url : List Char)
  | unparseable
deriving DecidableEq, Repr

/-- Model of `ActionExecutor.execute` (action_executor.py lines 25-63):
the input is stripped, then the patterns are tried in order DONE, PAUSE,
WAIT, CLICK, TYPE, SCROLL, GOTO, falling through to the cannot-parse
result.  Only the DONE branch returns `True` as the done flag; every other
branch of the source returns `False`, which the model factors out. -/
def executeAction (action : String) : Bool × ActionOutcome :=
  let s := pyStripChars action.toList
  if containsCIChars s ['d', 'o', 'n', 'e'] then (true, .done)
  else (false,
    if containsCIChars s ['p', 'a', 'u', 's', 'e'] then .pause
    else
      match waitSearch s with
      | some n => .wait n
      | none =>
        match scanFor clickAt s with
        | some tid => .click tid
        | none =>
          match scanFor typeAt s with
          | some tt => .typeText tt.1 tt.2
          | none =>
            match scanFor scrollAt s with
            | some up => .scroll up
            | none =>
              match scanFor gotoAt s with
              | some url => .goto (normalizeGotoUrl url)
              | none => .unparseable)

/-- Closed witness for `c6_get_or_create_site_idempotent` at the empty
table. -/
theorem c6_get_or_create_site_idempotent_witness :
    (get_or_create_site ⟨[], 1⟩ "ex.com" "n" "d").1.id =
      (get_or_create_site (get_or_create_site ⟨[], 1⟩ "ex.com" "n" "d").2
        "ex.com" "n" "d").1.id ∧
    (get_or_create_site (get_or_create_site ⟨[], 1⟩ "ex.com" "n" "d").2
      "ex.com" "n" "d").2 =
      (get_or_create_site ⟨[], 1⟩ "ex.com" "n" "d").2 ∧
    countDomain (get_or_create_site ⟨[], 1⟩ "ex.com" "n" "d").2 "ex.com" = 1 :=
  c6_get_or_create_site_idempotent ⟨[], 1⟩ "ex.com" "n" "d" (by decide)

/-! ## Whitespace lemmas for the stripped DONE search -/

lemma ws_toLower (c : Char) (h : c.isWhitespace = true) : c.toLower = c := by
  have h2 : ((c = ' ' ∨ c = '\t') ∨ c = '\x0d') ∨ c = '\n' := by
    simpa [Char.isWhitespace] using h
  rcases h2 with ((rfl | rfl) | rfl) | rfl <;> decide

lemma leadsCI_head_ws_false (n0 : Char) (np : List Char) (c : Char) (t : List Char)
    (hn0 : (n0.toLower).isWhitespace = false) (hc : c.isWhitespace = true) :
    leadsCIChars (n0 :: np) (c :: t) = false := by
  have hl : c.toLower = c := ws_toLower c hc
  have hne : (n0.toLower == c.toLower) = false := by
    rw [hl]
    apply beq_eq_false_iff_ne.mpr
    intro he
    rw [he, hc] at hn0
    exact Bool.true_eq_false.mp hn0
  simp [leadsCIChars, hne]

lemma leadsCI_append_ws : ∀ n m w : List Char,
    (∀ c ∈ n, (c.toLower).isWhitespace = false) →
    (∀ c ∈ w, c.isWhitespace = true) →
    leadsCIChars n (m ++ w) = leadsCIChars n m := by
  intro n
  induction n with
  | nil => intro m w _ _; simp [leadsCIChars]
  | cons n0 np ih =>
    intro m w hn hw
    cases m with
    | nil =>
      simp only [List.nil_append]
      cases w with
      | nil => rfl
      | cons c t =>
        rw [leadsCI_head_ws_false n0 np c t (hn n0 (List.mem_cons_self _ _))
          (hw c (List.mem_cons_self _ _))]
        rfl
    | cons c mp =>
      simp only [List.cons_append, leadsCIChars, List.append_eq]
      rw [ih mp w (fun x hx => hn x (List.mem_cons_of_mem _ hx)) hw]

lemma containsCI_nil_needle : ∀ h : List Char, containsCIChars h [] = true := by
  intro h
  induction h with
  | nil => rfl
  | cons c t ih => simp [containsCIChars, leadsCIChars]

lemma containsCI_ws_all : ∀ (w : List Char) (n0 : Char) (np : List Char),
    (∀ c ∈ w, c.isWhitespace = true) →
    (n0.toLower).isWhitespace = false →
    containsCIChars w (n0 :: np) = false := by
  intro w
  induction w with
  | nil => intro n0 np _ _; rfl
  | cons c t ih =>
    intro n0 np hw hn0
    simp only [containsCIChars]
    rw [leadsCI_head_ws_false n0 np c t hn0 (hw c (List.mem_cons_self _ _)),
      ih n0 np (fun x hx => hw x (List.mem_cons_of_mem _ hx)) hn0]
    rfl

lemma containsCI_append_ws_right : ∀ (m w n : List Char),
    (∀ c ∈ n, (c.toLower).isWhitespace = false) →
    (∀ c ∈ w, c.isWhitespace = true) →
    containsCIChars (m ++ w) n = containsCIChars m n := by
  intro m
  induction m with
  | nil =>
    intro w n hn hw
    cases n with
    | nil => rw [containsCI_nil_needle, containsCI_nil_needle]
    | cons n0 np =>
      simp only [List.nil_append]
      rw [containsCI_ws_all w n0 np hw (hn n0 (List.mem_cons_self _ _))]
      rfl
  | cons c mp ih =>
    intro w n hn hw
    simp only [List.cons_append, containsCIChars, List.append_eq]
    rw [ih w n hn hw]
    have hle : leadsCIChars n ((c :: mp) ++ w) = leadsCIChars n (c :: mp) :=
      leadsCI_append_ws n (c :: mp) w hn hw
    simp only [List.cons_append] at hle
    rw [hle]

lemma containsCI_append_ws_left : ∀ (w m n : List Char),
    (∀ c ∈ n, (c.toLower).isWhitespace = false) →
    (∀ c ∈ w, c.isWhitespace = true) →
    containsCIChars (w ++ m) n = containsCIChars m n := by
  intro w
  induction w with
  | nil => intro m n _ _; rfl
  | cons c t ih =>
    intro m n hn hw
    cases n with
    | nil => rw [containsCI_nil_needle, containsCI_nil_needle]
    | cons n0 np =>
      simp only [List.cons_append, containsCIChars, List.append_eq]
      rw [leadsCI_head_ws_false n0 np c (t ++ m)
        (hn n0 (List.mem_cons_self _ _)) (hw c (List.mem_cons_self _ _)),
        ih m (n0 :: np) hn (fun x hx => hw x (List.mem_cons_of_mem _ hx))]
      rfl

/-- Stripping surrounding whitespace does not change a case-insensitive
search for a needle whose characters are not whitespace. -/
lemma containsCI_pyStrip (l n : List Char)
    (hn : ∀ c ∈ n, (c.toLower).isWhitespace = false) :
    containsCIChars (pyStripChars l) n = containsCIChars l n := by
  have h1 := List.takeWhile_append_dropWhile (p := Char.isWhitespace) (l := l)
  have h2 := congrArg List.reverse
    (List.takeWhile_append_dropWhile (p := Char.isWhitespace)
      (l := (l.dropWhile Char.isWhitespace).reverse))
  rw [List.reverse_append, List.reverse_reverse] at h2
  have hdecomp : l.dropWhile Char.isWhitespace =
      pyStripChars l ++
        ((l.dropWhile Char.isWhitespace).reverse.takeWhile Char.isWhitespace).reverse :=
    h2.symm
  have hwtake : ∀ c ∈ l.takeWhile Char.isWhitespace, c.isWhitespace = true :=
    fun c hc => List.mem_takeWhile_imp hc
  have hwtail : ∀ c ∈
      ((l.dropWhile Char.isWhitespace).reverse.takeWhile Char.isWhitespace).reverse,
      c.isWhitespace = true := by
    intro c hc
    exact List.mem_takeWhile_imp (List.mem_reverse.mp hc)
  calc containsCIChars (pyStripChars l) n
      = containsCIChars (pyStripChars l ++
          ((l.dropWhile Char.isWhitespace).reverse.takeWhile Char.isWhitespace).reverse)
          n := (containsCI_append_ws_right _ _ n hn hwtail).symm
    _ = containsCIChars (l.dropWhile Char.isWhitespace) n := by rw [← hdecomp]
    _ = containsCIChars (l.takeWhile Char.isWhitespace ++
          l.dropWhile Char.isWhitespace) n :=
        (containsCI_append_ws_left _ _ n hn hwtake).symm
    _ = containsCIChars l n := by rw [h1]

/-- The done flag of the dispatch equals the DONE test on the stripped
input. -/
lemma fst_executeAction (a : String) :
    (executeAction a).1 =
      containsCIChars (pyStripChars a.toList) ['d', 'o', 'n', 'e'] := by
  simp only [executeAction]
  cases h : containsCIChars (pyStripChars a.toList) ['d', 'o', 'n', 'e'] <;> simp [h]

/-- C10: the executor signals completion exactly when the action string
contains DONE case-insensitively anywhere — DONE is tested before every
other pattern, so a string holding both DONE and another command completes
without running the other command — and every other branch (PAUSE, WAIT,
CLICK, TYPE, SCROLL, GOTO, unparseable) reports done=false. -/
theorem c10_execute_done_iff :
    (∀ a : String,
      (executeAction a).1 = containsCIChars a.toList ['d', 'o', 'n', 'e']) ∧
    executeAction "CLICK [3] DONE" = (true, ActionOutcome.done) ∧
    executeAction "PAUSE" = (false, ActionOutcome.pause) ∧
    executeAction "WAIT 5" = (false, ActionOutcome.wait 5) ∧
    executeAction "CLICK [3]" = (false, ActionOutcome.click 3) ∧
    executeAction "TYPE [2] \"hi\"" =
      (false, ActionOutcome.typeText 2 ['h', 'i']) ∧
    executeAction "SCROLL UP" = (false, ActionOutcome.scroll true) ∧
    executeAction "GOTO \"https://a.com\"" =
      (false, ActionOutcome.goto "https://a.com".toList) ∧
    executeAction "blah" = (false, ActionOutcome.unparseable) := by
  refine ⟨?_, by decide, by decide, by decide, by decide, by decide,
    by decide, by decide, by decide⟩
  intro a
  rw [fst_executeAction a,
    containsCI_pyStrip a.toList ['d', 'o', 'n', 'e'] (by decide)]

/-! ## Live execution loop (`WebAgent._execute_without_memory`) -/

/-- Terminal outcome of a live-execution run: completion at a step, or the
max-steps "not completed" report (agent.py line 265). -/
inductive LiveResult
  | completed (steps : Nat)
  | maxReached (maxSteps : Nat)
deriving DecidableEq, Repr

/-- Model of the bounded `while` loop of `_execute_without_memory`
(agent.py lines 219-265): `step` is the number of iterations performed so
far, `fuel` the remaining iterations allowed by `step < _max_steps`; each
iteration obtains the model's action for the incremented step and finishes
when the executor reports done.  The `_running` flag stays true for the
whole call and the model omits it. -/
def liveLoopAux (actions : Nat → String) (maxSteps : Nat) :
    Nat → Nat → LiveResult
  | _, 0 => .maxReached maxSteps
  | step, fuel + 1 =>
    if (executeAction (actions (step + 1))).1 then .completed (step + 1)
    else liveLoopAux actions maxSteps (step + 1) fuel

/-- Model of `WebAgent._execute_without_memory` with the default step cap
`_max_steps = 20` (agent.py line 36). -/
def execute_without_memory (actions : Nat → String) : LiveResult :=
  liveLoopAux actions 20 0 20

lemma liveLoopAux_none (actions : Nat → String) (maxSteps : Nat) :
    ∀ (fuel step : Nat),
    (∀ i, step < i → i ≤ step + fuel → (executeAction (actions i)).1 = false) →
    liveLoopAux actions maxSteps step fuel = .maxReached maxSteps := by
  intro fuel
  induction fuel with
  | zero => intro step _; rfl
  | succ f ih =>
    intro step h
    have h1 : (executeAction (actions (step + 1))).1 = false :=
      h (step + 1) (by omega) (by omega)
    simp only [liveLoopAux, h1, Bool.false_eq_true, if_false]
    exact ih (step + 1) fun i hi1 hi2 => h i (by omega) (by omega)

lemma liveLoopAux_done (actions : Nat → String) (maxSteps : Nat) :
    ∀ (fuel step k : Nat), step < k → k ≤ step + fuel →
    (executeAction (actions k)).1 = true →
    (∀ i, step < i → i < k → (executeAction (actions i)).1 = false) →
    liveLoopAux actions maxSteps step fuel = .completed k := by
  intro fuel
  induction fuel with
  | zero => intro step k h1 h2 _ _; omega
  | succ f ih =>
    intro step k h1 h2 h3 h4
    by_cases hk : k = step + 1
    · subst hk
      simp [liveLoopAux, h3]
    · have hne : (executeAction (actions (step + 1))).1 = false :=
        h4 (step + 1) (by omega) (by omega)
      simp only [liveLoopAux, hne, Bool.false_eq_true, if_false]
      exact ih (step + 1) k (by omega) (by omega) h3
        fun i hi1 hi2 => h4 i (by omega) hi2

/-- C9: a live-execution run whose model never signals DONE within the cap
performs 20 steps and returns the explicit max-steps "not completed"
result; and whenever step k is the first whose action signals DONE (k at
most 20), the run returns completion at step k. -/
theorem c9_live_execution_cap (actions : Nat → String) :
    ((∀ i, 1 ≤ i → i ≤ 20 → (executeAction (actions i)).1 = false) →
      execute_without_memory actions = .maxReached 20) ∧
    (∀ k, 1 ≤ k → k ≤ 20 → (executeAction (actions k)).1 = true →
      (∀ i, 1 ≤ i → i < k → (executeAction (actions i)).1 = false) →
      execute_without_memory actions = .completed k) := by
  constructor
  · intro h
    exact liveLoopAux_none actions 20 20 0 fun i hi1 hi2 => h i (by omega) (by omega)
  · intro k h1 h2 h3 h4
    exact liveLoopAux_done actions 20 20 0 k (by omega) (by omega) h3
      fun i hi1 hi2 => h4 i (by omega) hi2

/-- Closed witness for `c9_live_execution_cap`: a run that never emits
DONE reaches the cap, and a run whose third action is DONE completes at
step 3. -/
theorem c9_live_execution_cap_witness :
    execute_without_memory (fun _ => "CLICK [1]") = .maxReached 20 ∧
    execute_without_memory
      (fun i => if i = 3 then "DONE" else "CLICK [1]") = .completed 3 := by
  constructor
  · exact (c9_live_execution_cap _).1 fun i _ _ => by decide
  · exact (c9_live_execution_cap _).2 3 (by decide) (by decide) (by decide)
      fun i hi1 hi2 => by interval_cases i <;> decide

/-! ## JSON extraction and parsing (`PageAnalyzer.analyze_page`,
`MemoryBasedPlanner.plan_task`)

Both functions search the model response with the greedy regex
`re.search` of a brace-open, any characters, brace-close (explorer.py
lines 102 and 667) and feed the match to `json.loads`.  The parser below
models the JSON grammar `json.loads` accepts (objects, arrays, strings
with the standard escapes, numbers with fraction and exponent, the three
literals, strict rejection of raw control characters in strings and of
trailing data); numbers are represented as rationals.  Brace characters
are written by code point to keep them out of literals. -/

/-- An opening curly brace, by code point. -/
def openBrace : Char := Char.ofNat 123

/-- A closing curly brace, by code point. -/
def closeBrace : Char := Char.ofNat 125

/-- A single value of the JSON data model; object members keep source
order and duplicates, and lookups take the last occurrence as Python
dicts do. -/
inductive Json
  | null
  | bool (b : Bool)
  | num (q : ℚ)
  | str (s : List Char)
  | arr (xs : List Json)
  | obj (kvs : List (List Char × Json))

/-- Python dict `.get` over a parsed object: the last binding of the key
wins. -/
def jsonGet (j : Json) (key : List Char) : Option Json :=
  match j with
  | .obj kvs => (kvs.reverse.find? fun kv => kv.1 == key).map (·.2)
  | _ => none

/-- The JSON whitespace characters `json.loads` skips. -/
def jsonWs (c : Char) : Bool :=
  c == ' ' || c == '\t' || c == '\n' || c == '\x0d'

/-- Model of skipping JSON whitespace. -/
def skipJsonWs (l : List Char) : List Char := l.dropWhile jsonWs

/-- Value of one hexadecimal digit. -/
def hexVal (c : Char) : Option Nat :=
  if c.isDigit then some (c.toNat - 48)
  else if 97 ≤ c.toNat && c.toNat ≤ 102 then some (c.toNat - 87)
  else if 65 ≤ c.toNat && c.toNat ≤ 70 then some (c.toNat - 55)
  else none

/-- The single-character JSON string escapes. -/
def escChar (e : Char) : Option Char :=
  if e == '"' then some '"'
  else if e == '\\' then some '\\'
  else if e == '/' then some '/'
  else if e == 'b' then some (Char.ofNat 8)
  else if e == 'f' then some (Char.ofNat 12)
  else if e == 'n' then some '\n'
  else if e == 'r' then some '\x0d'
  else if e == 't' then some '\t'
  else none

/-- Model of the JSON string scanner, applied after the opening quote:
returns the decoded content and the remainder after the closing quote.
Raw control characters are rejected as in strict-mode `json.loads`;
`\uXXXX` escapes outside the valid scalar range decode to the null
character (Python would keep a lone surrogate, a divergence no modelled
input exercises). -/
def parseStringBody : Nat → List Char → Option (List Char × List Char)
  | 0, _ => none
  | _ + 1, [] => none
  | fuel + 1, c :: t =>
    if c == '"' then some ([], t)
    else if c == '\\' then
      match t with
      | [] => none
      | e :: t2 =>
        if e == 'u' then
          match t2 with
          | h1 :: h2 :: h3 :: h4 :: t3 =>
            match hexVal h1, hexVal h2, hexVal h3, hexVal h4 with
            | some v1, some v2, some v3, some v4 =>
              match parseStringBody fuel t3 with
              | some (b, r) =>
                some (Char.ofNat (((v1 * 16 + v2) * 16 + v3) * 16 + v4) :: b, r)
              | none => none
            | _, _, _, _ => none
          | _ => none
        else
          match escChar e with
          | some ec =>
            match parseStringBody fuel t2 with
            | some (b, r) => some (ec :: b, r)
            | none => none
          | none => none
    else if c.toNat < 32 then none
    else
      match parseStringBody fuel t with
      | some (b, r) => some (c :: b, r)
      | none => none

/-- Exponent part of a JSON number. -/
def parseExpPart (q : ℚ) (l : List Char) : Option (ℚ × List Char) :=
  match l with
  | 'e' :: r | 'E' :: r =>
    let sgn : ℤ := match r with
      | '-' :: _ => -1
      | _ => 1
    let r1 := match r with
      | '+' :: t => t
      | '-' :: t => t
      | _ => r
    let eds := r1.takeWhile Char.isDigit
    if eds == [] then none
    else some (q * (10 : ℚ) ^ (sgn * (digitsToNat eds : ℤ)), r1.drop eds.length)
  | _ => some (q, l)

/-- Fraction part of a JSON number. -/
def parseFracPart (q : ℚ) (l : List Char) : Option (ℚ × List Char) :=
  match l with
  | '.' :: r =>
    let fds := r.takeWhile Char.isDigit
    if fds == [] then none
    else parseExpPart (q + (digitsToNat fds : ℚ) / (10 : ℚ) ^ fds.length)
      (r.drop fds.length)
  | _ => parseExpPart q l

/-- Model of the JSON number grammar: optional minus, an integer part with
no leading zero, optional fraction and exponent. -/
def parseNumber (l : List Char) : Option (ℚ × List Char) :=
  let neg : Bool := match l with
    | '-' :: _ => true
    | _ => false
  let l1 := if neg then l.drop 1 else l
  match l1 with
  | c :: _ =>
    if c == '0' then
      match parseFracPart 0 (l1.drop 1) with
      | some (q, r) => some (if neg then -q else q, r)
      | none => none
    else if c.isDigit then
      let ds := l1.takeWhile Char.isDigit
      match parseFracPart (digitsToNat ds : ℚ) (l1.drop ds.length) with
      | some (q, r) => some (if neg then -q else q, r)
      | none => none
    else none
  | [] => none

mutual

/-- Model of parsing one JSON value, with fuel bounding the nesting
depth. -/
def parseJsonVal : Nat → List Char → Option (Json × List Char)
  | 0, _ => none
  | fuel + 1, l =>
    let l1 := skipJsonWs l
    if leadsChars "null".toList l1 then some (.null, l1.drop 4)
    else if leadsChars "true".toList l1 then some (.bool true, l1.drop 4)
    else if leadsChars "false".toList l1 then some (.bool false, l1.drop 5)
    else
      match l1 with
      | [] => none
      | c :: r =>
        if c == '"' then
          match parseStringBody r.length r with
          | some (s, r2) => some (.str s, r2)
          | none => none
        else if c == '[' then
          match skipJsonWs r with
          | ']' :: r2 => some (.arr [], r2)
          | r1 =>
            match parseArrayItems fuel r1 with
            | some (xs, r2) => some (.arr xs, r2)
            | none => none
        else if c == openBrace then
          let r1 := skipJsonWs r
          match r1 with
          | c2 :: r2 =>
            if c2 == closeBrace then some (.obj [], r2)
            else
              match parseObjItems fuel r1 with
              | some (kvs, r3) => some (.obj kvs, r3)
              | none => none
          | [] => none
        else
          match parseNumber l1 with
          | some (q, r2) => some (.num q, r2)
          | none => none

/-- Comma-separated array items up to the closing bracket. -/
def parseArrayItems : Nat → List Char → Option (List Json × List Char)
  | 0, _ => none
  | fuel + 1, l =>
    match parseJsonVal fuel l with
    | none => none
    | some (j, r) =>
      match skipJsonWs r with
      | ',' :: r2 =>
        match parseArrayItems fuel r2 with
        | some (xs, r3) => some (j :: xs, r3)
        | none => none
      | ']' :: r2 => some ([j], r2)
      | _ => none

/-- Comma-separated object members up to the closing brace. -/
def parseObjItems : Nat → List Char → Option (List (List Char × Json) × List Char)
  | 0, _ => none
  | fuel + 1, l =>
    match skipJsonWs l with
    | '"' :: r =>
      match parseStringBody r.length r with
      | none => none
      | some (k, r2) =>
        match skipJsonWs r2 with
        | ':' :: r3 =>
          match parseJsonVal fuel r3 with
          | none => none
          | some (v, r4) =>
            match skipJsonWs r4 with
            | ',' :: r5 =>
              match parseObjItems fuel r5 with
              | some (kvs, r6) => some ((k, v) :: kvs, r6)
              | none => none
            | c5 :: r5 =>
              if c5 == closeBrace then some ([(k, v)], r5) else none
            | [] => none
        | _ => none
    | _ => none

end

/-- Model of `json.loads`: parse one value, allow surrounding whitespace,
reject trailing data. -/
def jsonLoads (l : List Char) : Option Json :=
  match parseJsonVal (l.length + 1) l with
  | some (j, rest) => if skipJsonWs rest == [] then some j else none
  | none => none

/-- Model of `re.search` with the greedy brace pattern of explorer.py
lines 102 and 667: the match runs from the first opening brace to the last
closing brace of the whole response, or fails when no closing brace
follows the first opening brace. -/
def extractJsonGreedy (l : List Char) : Option (List Char) :=
  match l.dropWhile (· != openBrace) with
  | [] => none
  | c :: t =>
    match ((c :: t).reverse.dropWhile (· != closeBrace)).reverse with
    | [] => none
    | [_] => none
    | r => some r

/-- Modelled from the spec: extraction of the first balanced brace block,
the behavior section 6 of the spec ascribes to the response handling.  The
scan starts at the first opening brace and ends at the brace that closes
it, counting nesting depth. -/
def balancedAux : List Char → Nat → Option (List Char)
  | [], _ => none
  | c :: t, depth =>
    if c == openBrace then
      match balancedAux t (depth + 1) with
      | some b => some (c :: b)
      | none => none
    else if c == closeBrace then
      if depth == 1 then some [c]
      else
        match balancedAux t (depth - 1) with
        | some b => some (c :: b)
        | none => none
    else
      match balancedAux t depth with
      | some b => some (c :: b)
      | none => none

/-- Modelled from the spec: the first balanced brace block of the
response, compared against the code's greedy extraction. -/
def firstBalancedBlock (l : List Char) : Option (List Char) :=
  match l.dropWhile (· != openBrace) with
  | [] => none
  | rest => balancedAux rest 0

/-- Documented default record of `PageAnalyzer.analyze_page` (explorer.py
lines 110-118). -/
def defaultPageInfo : Json :=
  .obj [("page_type".toList, .str "unknown".toList),
        ("page_description".toList, .str "无法分析的页面".toList),
        ("key_features".toList, .arr []),
        ("has_sidebar_nav".toList, .bool false),
        ("sidebar_nav_items".toList, .arr []),
        ("important_elements".toList, .arr []),
        ("suggested_explorations".toList, .arr [])]

/-- Canonical cannot-plan result of `MemoryBasedPlanner.plan_task`
(explorer.py lines 675-680). -/
def cannotPlanResult : Json :=
  .obj [("can_plan".toList, .bool false),
        ("confidence".toList, .num 0),
        ("plan".toList, .arr []),
        ("unknown_steps".toList, .arr [.str "无法解析规划结果".toList])]

/-- Model of the response handling of `PageAnalyzer.analyze_page`
(explorer.py lines 93-118); the vision call is external, so the model's
input is the response text (empty meaning a falsy response).  A greedy
brace match is parsed and returned as-is; any failure yields the
documented default record and no exception escapes. -/
def analyze_page (response : String) : Json :=
  if response != "" then
    match extractJsonGreedy response.toList with
    | some s =>
      match jsonLoads s with
      | some j => j
      | none => defaultPageInfo
    | none => defaultPageInfo
  else defaultPageInfo

/-- Model of the response handling of `MemoryBasedPlanner.plan_task`
(explorer.py lines 663-680); the prompt assembly and chat call are
external, so the model's input is the response text.  Any failure yields
the canonical cannot-plan result and no exception escapes. -/
def plan_task (response : String) : Json :=
  if response != "" then
    match extractJsonGreedy response.toList with
    | some s =>
      match jsonLoads s with
      | some j => j
      | none => cannotPlanResult
    | none => cannotPlanResult
  else cannotPlanResult

/-- C8 counterexample: a response whose prose holds a stray closing brace
after the JSON object.  The first balanced block parses to an object, but
the code's greedy match swallows the trailing prose, `json.loads` rejects
it, and both functions return their defaults instead of the parsed block
the claim promises. -/
theorem c8_counterexample :
    analyze_page "pre \x7b\"page_type\": \"list\"\x7d post \x7d" =
      defaultPageInfo ∧
    plan_task "pre \x7b\"page_type\": \"list\"\x7d post \x7d" =
      cannotPlanResult ∧
    (firstBalancedBlock
        "pre \x7b\"page_type\": \"list\"\x7d post \x7d".toList).bind jsonLoads =
      some (.obj [("page_type".toList, .str "list".toList)]) ∧
    defaultPageInfo ≠ .obj [("page_type".toList, .str "list".toList)] ∧
    cannotPlanResult ≠ .obj [("page_type".toList, .str "list".toList)] := by
  refine ⟨rfl, rfl, rfl, ?_, ?_⟩
  · intro h
    have h2 := congrArg
      (fun j => match j with | Json.obj kvs => kvs.length | _ => 0) h
    simp [defaultPageInfo] at h2
  · intro h
    have h2 := congrArg
      (fun j => match j with | Json.obj kvs => kvs.length | _ => 0) h
    simp [cannotPlanResult] at h2

/-- C8 amended: both response handlers extract the maximal block from the
first opening brace to the last closing brace of the response (the greedy
regex), not the first balanced block; a successfully parsed block is
returned as-is, and when no block exists or `json.loads` rejects it,
`analyze_page` returns the documented default record and `plan_task` the
canonical cannot-plan result — neither ever raises. -/
theorem c8_parse_failure_defaults (r : String) :
    ((extractJsonGreedy r.toList).bind jsonLoads = none →
      analyze_page r = defaultPageInfo ∧ plan_task r = cannotPlanResult) ∧
    (∀ j, (extractJsonGreedy r.toList).bind jsonLoads = some j →
      analyze_page r = j ∧ plan_task r = j) := by
  constructor
  · intro h
    by_cases hre : r = ""
    · subst hre
      exact ⟨rfl, rfl⟩
    · have hb : (r != "") = true := by simp [hre]
      cases he : extractJsonGreedy r.toList with
      | none =>
        have he2 : extractJsonGreedy r.data = none := he
        simp [analyze_page, plan_task, hb, he2]
      | some s =>
        rw [he] at h
        have hj : jsonLoads s = none := by simpa using h
        have he2 : extractJsonGreedy r.data = some s := he
        simp [analyze_page, plan_task, hb, he2, hj]
  · intro j h
    cases he : extractJsonGreedy r.toList with
    | none => rw [he] at h; simp at h
    | some s =>
      rw [he] at h
      have hj : jsonLoads s = some j := by simpa using h
      have hre : r ≠ "" := by
        intro hr
        subst hr
        exact absurd he (by simp [extractJsonGreedy])
      have hb : (r != "") = true := by simp [hre]
      have he2 : extractJsonGreedy r.data = some s := he
      simp [analyze_page, plan_task, hb, he2, hj]

/-- Closed witness for `c8_parse_failure_defaults` at a response with no
JSON at all. -/
theorem c8_parse_failure_defaults_witness :
    analyze_page "no json here" = defaultPageInfo ∧
    plan_task "no json here" = cannotPlanResult :=
  (c8_parse_failure_defaults "no json here").1 rfl

end Claweb
